import Mathlib

/-!
A shallow embedding, in Lean 4, of the selection/collection core of the
solid-aria repository:

* `src/packages/collection/src/createCollection.ts` — the ordered keyed
  collection (`addItem`, `removeItem`, `findByIndex`, `findByKey`,
  `findIndexByKey`, `findIndexBySearch`, first/last index queries);
* `src/packages/selection/src/createSelectableCollection.ts` — the keydown
  handler of the selectable-collection controller, embedded as a pure
  function from a keyboard event and the ambient state to the ordered trace
  of DOM/selection-manager effects it performs;
* `src/packages/utils/src/handler.ts` — `callHandler` / `chainHandlers`.

JavaScript arrays become `List`, JS `undefined`/`null` results become
`Option`, JS numbers used as indices become `Int` (so the `-1` sentinel is
representable), and the side-effecting manager/DOM calls of the keydown
handler become an explicit trace of `Action`s in execution order.
-/

namespace SolidAria

/-! ## Collection data model (`src/packages/collection/src/types.ts`) -/

/-- An item of a collection: `{ key, textValue, ref, isDisabled }`.
The DOM `ref` plays no role in any collection operation and is omitted;
the reactive `isDisabled` accessor is modelled by its current value. -/
structure Item where
  key : String
  textValue : String
  isDisabled : Bool
deriving DecidableEq

/-- JS `Array.prototype.findIndex`: index of the first element satisfying
`p`, or `-1` when there is none. -/
def jsFindIndex (p : α → Bool) : List α → Int
  | [] => -1
  | a :: as =>
    if p a then 0
    else
      let r := jsFindIndex p as
      if r = -1 then -1 else r + 1

/-- JS `Array.prototype.indexOf`: index of the first element equal to `a`,
or `-1`.  (JS compares object references; the embedding compares
structurally, which agrees whenever the list has no duplicate items.) -/
def jsIndexOf [DecidableEq α] (l : List α) (a : α) : Int :=
  jsFindIndex (fun b => decide (b = a)) l

/-! ## Collection operations (`createCollection.ts`) -/

/-- `isCollectionEmpty`: `!items() || items().length <= 0`. -/
def isCollectionEmpty (items : List Item) : Bool :=
  items.length ≤ 0

/-- `addItem`: `setItems(prev => [...prev, item])`. -/
def addItem (items : List Item) (item : Item) : List Item :=
  items ++ [item]

/-- `removeItem`: `setItems(prev => prev.filter(item => item.key !== key))`. -/
def removeItem (items : List Item) (key : String) : List Item :=
  items.filter (fun item => decide (item.key ≠ key))

/-- `findByIndex`: `items()[index] ?? null`.  A negative or out-of-range
index reads `undefined` in JS, hence `none` here. -/
def findByIndex (items : List Item) (index : Int) : Option Item :=
  if index < 0 then none else items.get? index.toNat

/-- `findByKey`: `items().find(item => item.key === key) ?? null`. -/
def findByKey (items : List Item) (key : String) : Option Item :=
  items.find? (fun item => decide (item.key = key))

/-- `findIndexByKey`: `items().findIndex(item => item.key === key)` with an
optional `key` argument (`undefined` matches no item, keys being strings). -/
def findIndexByKey (items : List Item) (key : Option String) : Int :=
  jsFindIndex (fun item => decide (some item.key = key)) items

/-- `getFirstIndex`: `-1` when empty, else `0`. -/
def getFirstIndex (items : List Item) : Int :=
  if isCollectionEmpty items then -1 else 0

/-- `getLastIndex`: `-1` when empty, else `items().length - 1`. -/
def getLastIndex (items : List Item) : Int :=
  if isCollectionEmpty items then -1 else (items.length : Int) - 1

/-- `isFirstIndex`: `false` when empty, else `index === getFirstIndex()`. -/
def isFirstIndex (items : List Item) (index : Int) : Bool :=
  if isCollectionEmpty items then false else decide (index = getFirstIndex items)

/-- `isLastIndex`: `false` when empty, else `index === getLastIndex()`. -/
def isLastIndex (items : List Item) (index : Int) : Bool :=
  if isCollectionEmpty items then false else decide (index = getLastIndex items)

/-! ## Typeahead search (`findIndexBySearch`) -/

/-- An `Intl.Collator`, abstracted to its `compare` function. -/
structure Collator where
  compare : String → String → Int

/-- Modelled from the spec: `filterItems` (imported from
`src/packages/collection/src/utils`, a file not present under `src/`)
"filters items whose `textValue` starts with `filter` (locale-aware,
case-insensitive via the supplied collator)": an item matches when the
collator compares the prefix of its `textValue` of the filter's length as
equal to the filter. -/
def startsWithByCollator (collator : Collator) (text filter : String) : Bool :=
  decide (collator.compare (text.take filter.length) filter = 0)

/-- Modelled from the spec: `filterItems` keeps the items whose `textValue`
starts with the filter string under the collator. -/
def filterItems (items : List Item) (filter : String) (collator : Collator) :
    List Item :=
  items.filter (fun item => startsWithByCollator collator item.textValue filter)

/-- `allSameLetter`: `array.every(letter => letter === array[0])`
(vacuously `true` on the empty array). -/
def allSameLetter (l : List Char) : Bool :=
  l.all (fun c => decide (l.head? = some c))

/-- `findIndexBySearch(filter, collator, startIndex)`: rotate the items so
those from `startIndex` come first, take the first match of the filter and
return its index in the original array (`indexOf`); failing that, if the
filter is one repeated letter, retry with that single letter; else `-1`.
(`matches[0]` being `undefined` makes `indexOf` return `-1` in JS, hence
the `none => -1` arm.) -/
def findIndexBySearch (items : List Item) (filter : String) (collator : Collator)
    (startIndex : Nat) : Int :=
  let orderedItems := items.drop startIndex ++ items.take startIndex
  match (filterItems orderedItems filter collator).head? with
  | some firstMatch => jsIndexOf items firstMatch
  | none =>
    if allSameLetter filter.toList then
      match (filterItems orderedItems (filter.take 1) collator).head? with
      | some m => jsIndexOf items m
      | none => -1
    else -1

/-- The specification's reading of `findIndexBySearch`: walk the items in
wrap-around order starting at `startIndex`, each paired with its original
index, and return the original index of the first item whose `textValue`
starts with the filter; with the same repeated-letter fallback. -/
def findIndexBySearchSpec (items : List Item) (filter : String)
    (collator : Collator) (startIndex : Nat) : Int :=
  let ordered := items.enum.drop startIndex ++ items.enum.take startIndex
  match (ordered.filter
      (fun p => startsWithByCollator collator p.2.textValue filter)).head? with
  | some p => (p.1 : Int)
  | none =>
    if allSameLetter filter.toList then
      match (ordered.filter
          (fun p => startsWithByCollator collator p.2.textValue (filter.take 1))).head? with
      | some p => (p.1 : Int)
      | none => -1
    else -1

/-! ## Selectable collection controller
(`src/packages/selection/src/createSelectableCollection.ts`)

The keydown handler mutates the selection manager and the DOM.  The
embedding turns one invocation into the ordered list of effectful calls it
performs (`Action` trace); the values it *reads* (focused key, selection
mode, locale direction, configuration, delegate) are passed in as
parameters. -/

/-- `FocusStrategy` from `@solid-aria/types`. -/
inductive FocusStrategy where
  | first
  | last
deriving DecidableEq

/-- `"ltr" | "rtl"` locale direction. -/
inductive Direction where
  | ltr
  | rtl
deriving DecidableEq

/-- `SelectionMode`: `"none" | "single" | "multiple"`. -/
inductive SelectionMode where
  | noSelection
  | single
  | multiple
deriving DecidableEq

/-- One effectful call made by the keydown handler, in execution order.
`refFocus` is `refEl.focus()`; `tabToLastDescendant` abstracts the
focusable-tree-walker branch of the Tab case (pure DOM traversal with no
selection-manager effect). -/
inductive Action where
  | preventDefault
  | setFocusedKey (key : String) (childFocus : Option FocusStrategy)
  | extendSelection (key : String)
  | replaceSelection (key : String)
  | selectAll
  | clearSelection
  | refFocus
  | tabToLastDescendant
deriving DecidableEq

/-- `KeyboardDelegate` from `@solid-aria/types`: every navigation method is
optional (`delegate.m?.()`), and an absent method disables that affordance.
`getFirstKey`/`getLastKey` take optional `(fromKey?, ctrlKey?)` arguments,
modelled as total arguments with `none`/`false` passed where the source
omits them. -/
structure KeyboardDelegate where
  getKeyBelow : Option (String → Option String) := none
  getKeyAbove : Option (String → Option String) := none
  getKeyLeftOf : Option (String → Option String) := none
  getKeyRightOf : Option (String → Option String) := none
  getFirstKey : Option (Option String → Bool → Option String) := none
  getLastKey : Option (Option String → Bool → Option String) := none
  getKeyPageBelow : Option (String → Option String) := none
  getKeyPageAbove : Option (String → Option String) := none

/-- `delegate.getFirstKey?.(fromKey, ctrl)` — `undefined` when absent. -/
def callBoundary (m : Option (Option String → Bool → Option String))
    (fromKey : Option String) (ctrl : Bool) : Option String :=
  match m with
  | none => none
  | some f => f fromKey ctrl

/-- The configuration bundle of `CreateSelectableCollectionProps`, with
each `MaybeAccessor` resolved to its current boolean value
(`selectOnFocus` already defaulted from the selection behavior). -/
structure CollectionConfig where
  shouldFocusWrap : Bool := false
  disallowEmptySelection : Bool := false
  disallowSelectAll : Bool := false
  selectOnFocus : Bool := false
  allowsTabNavigation : Bool := false

/-- A keyboard event as read by the handler.  `targetInCollection` models
`refEl?.contains(e.target)`: whether the container ref exists and contains
the event target (false also covers events bubbled through portals). -/
structure KeyboardEvent where
  key : String
  altKey : Bool := false
  shiftKey : Bool := false
  ctrlKey : Bool := false
  metaKey : Bool := false
  targetInCollection : Bool := true
deriving DecidableEq

/-- Modelled from the spec: `isCtrlKeyPressed` (from
`src/packages/selection/src/utils.ts`, a file not present under `src/`)
tests the primary control modifier of the platform ("Ctrl+A", "honors a
modifier (e.g., Ctrl)"); the macOS meta-vs-ctrl platform branch is
abstracted to the ctrl modifier. -/
def isCtrlKeyPressed (e : KeyboardEvent) : Bool :=
  e.ctrlKey

/-- Modelled from the spec: `isNonContiguousSelectionModifier` (from
`src/packages/selection/src/utils.ts`, a file not present under `src/`)
tests the "non-contiguous-selection modifier"; the platform branch
(macOS alt vs ctrl) is abstracted to the ctrl modifier. -/
def isNonContiguousSelectionModifier (e : KeyboardEvent) : Bool :=
  e.ctrlKey

/-- The `navigateToKey` closure of `onKeyDown`: when the key is non-null,
set it focused, then extend the selection (Shift held and multiple mode) or
replace it (`selectOnFocus` and no non-contiguous-selection modifier). -/
def navigateToKey (e : KeyboardEvent) (selectOnFocus : Bool)
    (mode : SelectionMode) (key : Option String)
    (childFocus : Option FocusStrategy := none) : List Action :=
  match key with
  | none => []
  | some k =>
    [Action.setFocusedKey k childFocus] ++
      (if e.shiftKey && decide (mode = SelectionMode.multiple) then
        [Action.extendSelection k]
      else if selectOnFocus && !isNonContiguousSelectionModifier e then
        [Action.replaceSelection k]
      else [])

/-- The body of the `switch (e.key)` statement of `onKeyDown`, reached only
when the event target is contained in the collection element. -/
def keySwitch (cfg : CollectionConfig) (delegate : KeyboardDelegate)
    (dir : Direction) (mode : SelectionMode) (focusedKey : Option String)
    (e : KeyboardEvent) : List Action :=
  match e.key with
  | "ArrowDown" =>
    match delegate.getKeyBelow with
    | none => []
    | some getKeyBelow =>
      let nextKey₀ :=
        match focusedKey with
        | some fk => getKeyBelow fk
        | none => callBoundary delegate.getFirstKey none false
      let nextKey :=
        if nextKey₀ = none && cfg.shouldFocusWrap then
          callBoundary delegate.getFirstKey focusedKey false
        else nextKey₀
      Action.preventDefault :: navigateToKey e cfg.selectOnFocus mode nextKey
  | "ArrowUp" =>
    match delegate.getKeyAbove with
    | none => []
    | some getKeyAbove =>
      let nextKey₀ :=
        match focusedKey with
        | some fk => getKeyAbove fk
        | none => callBoundary delegate.getLastKey none false
      let nextKey :=
        if nextKey₀ = none && cfg.shouldFocusWrap then
          callBoundary delegate.getLastKey focusedKey false
        else nextKey₀
      Action.preventDefault :: navigateToKey e cfg.selectOnFocus mode nextKey
  | "ArrowLeft" =>
    match delegate.getKeyLeftOf with
    | none => []
    | some getKeyLeftOf =>
      let isRTL := decide (dir = Direction.rtl)
      let nextKey :=
        match focusedKey with
        | some fk => getKeyLeftOf fk
        | none =>
          if isRTL then callBoundary delegate.getFirstKey none false
          else callBoundary delegate.getLastKey none false
      Action.preventDefault ::
        navigateToKey e cfg.selectOnFocus mode nextKey
          (some (if isRTL then FocusStrategy.first else FocusStrategy.last))
  | "ArrowRight" =>
    match delegate.getKeyRightOf with
    | none => []
    | some getKeyRightOf =>
      let isRTL := decide (dir = Direction.rtl)
      let nextKey :=
        match focusedKey with
        | some fk => getKeyRightOf fk
        | none =>
          if isRTL then callBoundary delegate.getLastKey none false
          else callBoundary delegate.getFirstKey none false
      Action.preventDefault ::
        navigateToKey e cfg.selectOnFocus mode nextKey
          (some (if isRTL then FocusStrategy.last else FocusStrategy.first))
  | "Home" =>
    match delegate.getFirstKey with
    | none => []
    | some getFirstKey =>
      let firstKey := getFirstKey focusedKey (isCtrlKeyPressed e)
      Action.preventDefault ::
        (match firstKey with
        | none => []
        | some fk =>
          Action.setFocusedKey fk none ::
            (if isCtrlKeyPressed e && e.shiftKey &&
                decide (mode = SelectionMode.multiple) then
              [Action.extendSelection fk]
            else if cfg.selectOnFocus then [Action.replaceSelection fk]
            else []))
  | "End" =>
    match delegate.getLastKey with
    | none => []
    | some getLastKey =>
      let lastKey := getLastKey focusedKey (isCtrlKeyPressed e)
      Action.preventDefault ::
        (match lastKey with
        | none => []
        | some lk =>
          Action.setFocusedKey lk none ::
            (if isCtrlKeyPressed e && e.shiftKey &&
                decide (mode = SelectionMode.multiple) then
              [Action.extendSelection lk]
            else if cfg.selectOnFocus then [Action.replaceSelection lk]
            else []))
  | "PageDown" =>
    match delegate.getKeyPageBelow, focusedKey with
    | some getKeyPageBelow, some fk =>
      Action.preventDefault ::
        navigateToKey e cfg.selectOnFocus mode (getKeyPageBelow fk)
    | _, _ => []
  | "PageUp" =>
    match delegate.getKeyPageAbove, focusedKey with
    | some getKeyPageAbove, some fk =>
      Action.preventDefault ::
        navigateToKey e cfg.selectOnFocus mode (getKeyPageAbove fk)
    | _, _ => []
  | "a" =>
    if isCtrlKeyPressed e && decide (mode = SelectionMode.multiple) &&
        !cfg.disallowSelectAll then
      [Action.preventDefault, Action.selectAll]
    else []
  | "Escape" =>
    Action.preventDefault ::
      (if !cfg.disallowEmptySelection then [Action.clearSelection] else [])
  | "Tab" =>
    if !cfg.allowsTabNavigation then
      if e.shiftKey then [Action.refFocus] else [Action.tabToLastDescendant]
    else []
  | _ => []

/-- The `onKeyDown` handler: first the Alt+Tab `preventDefault`, then the
containment early-return (`!refEl?.contains(e.target)`), then the key
switch. -/
def onKeyDown (cfg : CollectionConfig) (delegate : KeyboardDelegate)
    (dir : Direction) (mode : SelectionMode) (focusedKey : Option String)
    (e : KeyboardEvent) : List Action :=
  (if e.altKey && decide (e.key = "Tab") then [Action.preventDefault] else []) ++
    (if !e.targetInCollection then []
    else keySwitch cfg delegate dir mode focusedKey e)

/-- The `tabIndex` computed by `collectionProps`: left `undefined` under
virtual focus, else `0` when no key is focused and `-1` otherwise. -/
def collectionPropsTabIndex (shouldUseVirtualFocus : Bool)
    (focusedKey : Option String) : Option Int :=
  if !shouldUseVirtualFocus then
    some (if focusedKey = none then 0 else -1)
  else none

/-! ## Event handler chaining (`src/packages/utils/src/handler.ts`)

A DOM event is a mutable object passed by reference to every handler; the
embedding threads the event's state through the handlers, so "calling a
handler with the event" is applying a state transformer to the current
event state. -/

/-- An event object: its `defaultPrevented` flag and an arbitrary payload
standing for the rest of its mutable state. -/
structure Event (α : Type) where
  defaultPrevented : Bool
  payload : α
deriving DecidableEq

/-- `JSX.EventHandlerUnion`: either a plain handler function or a bound
handler `[fn, data]` invoked as `handler[0](handler[1], event)`. -/
inductive EventHandlerUnion (D α : Type) where
  | fn (f : Event α → Event α)
  | bound (data : D) (f : D → Event α → Event α)

/-- `callHandler(handler, event)`: call the handler if defined (plain or
bound form) and return `event.defaultPrevented`; an `undefined` handler is
skipped.  The mutated event state is returned alongside. -/
def callHandler (handler : Option (EventHandlerUnion D α)) (event : Event α) :
    Event α × Bool :=
  let event' :=
    match handler with
    | none => event
    | some (EventHandlerUnion.fn f) => f event
    | some (EventHandlerUnion.bound data f) => f data event
  (event', event'.defaultPrevented)

/-- `chainHandlers(...fns)`: a handler that calls every `fn` in order via
`callHandler` on the (shared, mutable) event. -/
def chainHandlers (fns : List (Option (EventHandlerUnion D α)))
    (event : Event α) : Event α :=
  fns.foldl (fun ev fn => (callHandler fn ev).1) event

/-- A logging handler used to observe invocation order: it appends its tag
to the event's payload list and touches nothing else. -/
def taggingHandler (D : Type) (tag : Nat) : EventHandlerUnion D (List Nat) :=
  EventHandlerUnion.fn
    (fun ev => { ev with payload := ev.payload ++ [tag] })

/-! ## Helper lemmas -/

theorem neg_one_le_jsFindIndex (p : α → Bool) (l : List α) :
    -1 ≤ jsFindIndex p l := by
  induction l with
  | nil => simp [jsFindIndex]
  | cons a as ih =>
    simp only [jsFindIndex]
    split
    · omega
    · split <;> omega

theorem findIndexByKey_nonneg_of_mem {items : List Item} {k : String}
    (h : k ∈ items.map Item.key) : 0 ≤ findIndexByKey items (some k) := by
  induction items with
  | nil => simp at h
  | cons it rest ih =>
    by_cases hk : it.key = k
    · simp [findIndexByKey, jsFindIndex, hk]
    · have h' : k ∈ rest.map Item.key := by
        rcases List.mem_map.mp h with ⟨x, hx, hxk⟩
        rcases List.mem_cons.mp hx with hx | hx
        · exact absurd (hx ▸ hxk) hk
        · exact List.mem_map.mpr ⟨x, hx, hxk⟩
      have hr := ih h'
      simp only [findIndexByKey, jsFindIndex, Option.some.injEq, hk,
        decide_eq_true_eq, if_false, decide_eq_false] at hr ⊢
      split <;> omega

theorem jsFindIndex_cons (p : α → Bool) (a : α) (as : List α) :
    jsFindIndex p (a :: as) =
      if p a then 0
      else if jsFindIndex p as = -1 then -1 else jsFindIndex p as + 1 := rfl

theorem findIndexByKey_absent {items : List Item} {k : String}
    (h : k ∉ items.map Item.key) : findIndexByKey items (some k) = -1 := by
  induction items with
  | nil => rfl
  | cons it rest ih =>
    have hk : it.key ≠ k := fun hc => h (by simp [hc])
    have h' : k ∉ rest.map Item.key := fun hc => h (by simp [hc])
    have hrest := ih h'
    simp only [findIndexByKey] at hrest ⊢
    have hrest' : jsFindIndex (fun item => decide (item.key = k)) rest = -1 := by
      simpa using hrest
    rw [jsFindIndex_cons]
    simp [hk, hrest']

theorem findByKey_absent {items : List Item} {k : String}
    (h : k ∉ items.map Item.key) : findByKey items k = none := by
  induction items with
  | nil => rfl
  | cons it rest ih =>
    have hk : it.key ≠ k := fun hc => h (by simp [hc])
    have h' : k ∉ rest.map Item.key := fun hc => h (by simp [hc])
    have hrest := ih h'
    simp only [findByKey] at hrest ⊢
    rw [List.find?_cons_of_neg _ (by simp [hk])]
    exact hrest

/-- C4: `findIndexByKey` and `findByIndex` compose to `findByKey` on
present keys; on an absent key the index query returns `-1` and the key
query returns `null`. -/
theorem collection_roundtrip (items : List Item) (k : String) :
    (k ∈ items.map Item.key →
      findByIndex items (findIndexByKey items (some k)) = findByKey items k)
    ∧ (k ∉ items.map Item.key →
      findIndexByKey items (some k) = -1 ∧ findByKey items k = none) := by
  constructor
  · intro hmem
    induction items with
    | nil => simp at hmem
    | cons it rest ih =>
      by_cases hk : it.key = k
      · have hidx : findIndexByKey (it :: rest) (some k) = 0 := by
          simp only [findIndexByKey]
          rw [jsFindIndex_cons]
          simp [hk]
        rw [hidx]
        simp only [findByIndex, if_neg (by omega : ¬(0 : Int) < 0), Int.toNat_zero,
          List.get?_cons_zero]
        simp only [findByKey]
        rw [List.find?_cons_of_pos _ (by simp [hk])]
      · have hmem' : k ∈ rest.map Item.key := by
          rcases List.mem_map.mp hmem with ⟨x, hx, hxk⟩
          rcases List.mem_cons.mp hx with hx | hx
          · exact absurd (hx ▸ hxk) hk
          · exact List.mem_map.mpr ⟨x, hx, hxk⟩
        have hnn : 0 ≤ findIndexByKey rest (some k) :=
          findIndexByKey_nonneg_of_mem hmem'
        have hne : findIndexByKey rest (some k) ≠ -1 := by omega
        have hidx : findIndexByKey (it :: rest) (some k)
            = findIndexByKey rest (some k) + 1 := by
          simp only [findIndexByKey] at hne ⊢
          have hne' : ¬jsFindIndex (fun item => decide (item.key = k)) rest = -1 := by
            simpa using hne
          rw [jsFindIndex_cons]
          simp [hk, hne']
        rw [hidx]
        have htn : (findIndexByKey rest (some k) + 1).toNat
            = (findIndexByKey rest (some k)).toNat + 1 := by omega
        simp only [findByIndex, htn, if_neg (by omega :
          ¬findIndexByKey rest (some k) + 1 < 0), List.get?_cons_succ]
        have hrec := ih hmem'
        simp only [findByIndex, if_neg (by omega :
          ¬findIndexByKey rest (some k) < 0)] at hrec
        rw [hrec]
        simp only [findByKey]
        rw [List.find?_cons_of_neg _ (by simp [hk])]
  · intro habs
    exact ⟨findIndexByKey_absent habs, findByKey_absent habs⟩

theorem collection_roundtrip_witness :
    (findByIndex [⟨"a", "Apple", false⟩, ⟨"b", "Banana", false⟩]
        (findIndexByKey [⟨"a", "Apple", false⟩, ⟨"b", "Banana", false⟩] (some "b"))
      = findByKey [⟨"a", "Apple", false⟩, ⟨"b", "Banana", false⟩] "b")
    ∧ (findIndexByKey [⟨"a", "Apple", false⟩, ⟨"b", "Banana", false⟩] (some "z") = -1
      ∧ findByKey [⟨"a", "Apple", false⟩, ⟨"b", "Banana", false⟩] "z" = none) :=
  ⟨(collection_roundtrip [⟨"a", "Apple", false⟩, ⟨"b", "Banana", false⟩] "b").1
      (by decide),
    (collection_roundtrip [⟨"a", "Apple", false⟩, ⟨"b", "Banana", false⟩] "z").2
      (by decide)⟩

/-- C7: boundary index queries — an empty collection answers `-1` to
`getFirstIndex`/`getLastIndex` and `false` to `isFirstIndex`/`isLastIndex`
at every index; a non-empty collection answers `0` and `length - 1`. -/
theorem collection_boundary :
    getFirstIndex [] = -1 ∧ getLastIndex [] = -1
    ∧ (∀ i : Int, isFirstIndex [] i = false ∧ isLastIndex [] i = false)
    ∧ (∀ items : List Item, items ≠ [] →
        getFirstIndex items = 0 ∧ getLastIndex items = (items.length : Int) - 1) := by
  refine ⟨rfl, rfl, fun i => ⟨rfl, rfl⟩, fun items h => ?_⟩
  have hne : ¬isCollectionEmpty items = true := by
    simp [isCollectionEmpty, List.length_eq_zero, h]
  constructor
  · simp [getFirstIndex, hne]
  · simp [getLastIndex, hne]

theorem collection_boundary_witness :
    getFirstIndex [⟨"a", "Apple", false⟩] = 0
    ∧ getLastIndex [⟨"a", "Apple", false⟩] = 0 := by
  have h := collection_boundary.2.2.2 [⟨"a", "Apple", false⟩] (by decide)
  exact ⟨h.1, by simpa using h.2⟩

theorem jsFindIndex_append_of_mem {p : α → Bool} {l₁ : List α}
    (h : ∃ x ∈ l₁, p x = true) (l₂ : List α) :
    jsFindIndex p (l₁ ++ l₂) = jsFindIndex p l₁ := by
  induction l₁ with
  | nil => simp at h
  | cons a as ih =>
    rcases h with ⟨x, hx, hpx⟩
    by_cases hpa : p a = true
    · simp [jsFindIndex_cons, hpa]
    · have hxas : x ∈ as := by
        rcases List.mem_cons.mp hx with rfl | hmem
        · exact absurd hpx hpa
        · exact hmem
      have hrec := ih ⟨x, hxas, hpx⟩
      rw [List.cons_append, jsFindIndex_cons, jsFindIndex_cons, hrec]

/-- C9: `addItem` appends unconditionally — no key-uniqueness check.  After
adding an item `b` whose key equals that of an already-present item `a`,
the collection has grown by one, both occurrences are present, and
`findByKey`/`findIndexByKey` still resolve to the first-added occurrence
(the lookups are unchanged by the append). -/
theorem addItem_no_uniqueness (items : List Item) (a b : Item)
    (hmem : a ∈ items) (hkey : a.key = b.key) :
    addItem items b = items ++ [b]
    ∧ (addItem items b).length = items.length + 1
    ∧ a ∈ addItem items b ∧ b ∈ addItem items b
    ∧ findByKey (addItem items b) b.key = findByKey items b.key
    ∧ findIndexByKey (addItem items b) (some b.key)
        = findIndexByKey items (some b.key) := by
  refine ⟨rfl, by simp [addItem], by simp [addItem, hmem], by simp [addItem], ?_, ?_⟩
  · simp only [addItem, findByKey]
    rw [List.find?_append]
    have hsome : (items.find? fun item => decide (item.key = b.key)).isSome := by
      rw [List.find?_isSome]
      exact ⟨a, hmem, by simp [hkey]⟩
    rcases Option.isSome_iff_exists.mp hsome with ⟨v, hv⟩
    simp [hv]
  · simp only [addItem, findIndexByKey]
    exact jsFindIndex_append_of_mem ⟨a, hmem, by simp [hkey]⟩ [b]

theorem addItem_no_uniqueness_witness :
    addItem [⟨"a", "Apple", false⟩] ⟨"a", "Aloe", false⟩
      = [⟨"a", "Apple", false⟩, ⟨"a", "Aloe", false⟩]
    ∧ (addItem [⟨"a", "Apple", false⟩] ⟨"a", "Aloe", false⟩).length = 2
    ∧ (⟨"a", "Apple", false⟩ : Item) ∈ addItem [⟨"a", "Apple", false⟩] ⟨"a", "Aloe", false⟩
    ∧ (⟨"a", "Aloe", false⟩ : Item) ∈ addItem [⟨"a", "Apple", false⟩] ⟨"a", "Aloe", false⟩
    ∧ findByKey (addItem [⟨"a", "Apple", false⟩] ⟨"a", "Aloe", false⟩) "a"
        = findByKey [⟨"a", "Apple", false⟩] "a"
    ∧ findIndexByKey (addItem [⟨"a", "Apple", false⟩] ⟨"a", "Aloe", false⟩) (some "a")
        = findIndexByKey [⟨"a", "Apple", false⟩] (some "a") := by
  have h := addItem_no_uniqueness [⟨"a", "Apple", false⟩]
    ⟨"a", "Apple", false⟩ ⟨"a", "Aloe", false⟩ (by decide) (by decide)
  exact ⟨h.1, by simpa using h.2.1, h.2.2.1, h.2.2.2.1, h.2.2.2.2.1, h.2.2.2.2.2⟩

/-- C6: the container `tabIndex` is `0` when no key is focused, `-1` when a
key is focused, and omitted entirely (`undefined`) under virtual focus. -/
theorem collectionProps_tabIndex_policy :
    collectionPropsTabIndex false none = some 0
    ∧ (∀ k : String, collectionPropsTabIndex false (some k) = some (-1))
    ∧ (∀ fk : Option String, collectionPropsTabIndex true fk = none) := by
  refine ⟨rfl, fun k => ?_, fun fk => rfl⟩
  simp [collectionPropsTabIndex]

/-- C8: `chainHandlers` calls every supplied handler exactly once, in the
argument order, on the shared event: tagging handlers observe the trace of
invocations as exactly the tag list in argument order.  `undefined`
handlers anywhere in the argument list are skipped with no effect. -/
theorem chainHandlers_order_and_skip :
    (∀ (D : Type) (tags : List Nat) (ev : Event (List Nat)),
      chainHandlers (tags.map fun t => some (taggingHandler D t)) ev
        = { ev with payload := ev.payload ++ tags })
    ∧ (∀ (D α : Type) (fns₁ fns₂ : List (Option (EventHandlerUnion D α)))
        (ev : Event α),
      chainHandlers (fns₁ ++ none :: fns₂) ev = chainHandlers (fns₁ ++ fns₂) ev) := by
  constructor
  · intro D tags
    induction tags with
    | nil => intro ev; simp [chainHandlers]
    | cons t ts ih =>
      intro ev
      have hstep : chainHandlers ((t :: ts).map fun s => some (taggingHandler D s)) ev
          = chainHandlers (ts.map fun s => some (taggingHandler D s))
              { ev with payload := ev.payload ++ [t] } := rfl
      rw [hstep, ih]
      simp
  · intro D α fns₁ fns₂ ev
    simp [chainHandlers, List.foldl_append, callHandler]

/-- C5: disallowed selection shortcuts are silently suppressed.  Escape
performs `clearSelection` exactly when `disallowEmptySelection` is falsy;
Ctrl+A performs `selectAll` exactly when the mode is multiple and
`disallowSelectAll` is not true; in the suppressed cases the trace carries
no selection mutation (and the handler is a total function, so no
exception is possible). -/
theorem keydown_suppressed_ops (cfg : CollectionConfig)
    (delegate : KeyboardDelegate) (dir : Direction) (mode : SelectionMode)
    (fk : Option String) (e : KeyboardEvent) :
    (e.key = "Escape" → e.targetInCollection = true →
      onKeyDown cfg delegate dir mode fk e
        = Action.preventDefault ::
            (if cfg.disallowEmptySelection then [] else [Action.clearSelection]))
    ∧ (e.key = "a" → e.targetInCollection = true →
      onKeyDown cfg delegate dir mode fk e
        = if isCtrlKeyPressed e && decide (mode = SelectionMode.multiple)
              && !cfg.disallowSelectAll
          then [Action.preventDefault, Action.selectAll]
          else []) := by
  obtain ⟨key, alt, shift, ctrl, mta, tgt⟩ := e
  constructor
  · rintro rfl rfl
    cases hde : cfg.disallowEmptySelection <;>
      simp [onKeyDown, keySwitch, hde]
  · rintro rfl rfl
    simp only [onKeyDown, keySwitch]
    simp
theorem keydown_suppressed_ops_witness :
    (onKeyDown {} {} Direction.ltr SelectionMode.multiple none
        ⟨"Escape", false, false, false, false, true⟩
      = Action.preventDefault :: (if ({} : CollectionConfig).disallowEmptySelection
          then [] else [Action.clearSelection]))
    ∧ (onKeyDown ⟨false, false, true, false, false⟩ {} Direction.ltr
        SelectionMode.multiple none ⟨"a", false, false, true, false, true⟩
      = if isCtrlKeyPressed ⟨"a", false, false, true, false, true⟩
            && decide (SelectionMode.multiple = SelectionMode.multiple)
            && !(⟨false, false, true, false, false⟩ : CollectionConfig).disallowSelectAll
        then [Action.preventDefault, Action.selectAll]
        else []) :=
  ⟨(keydown_suppressed_ops {} {} Direction.ltr SelectionMode.multiple none
      ⟨"Escape", false, false, false, false, true⟩).1 rfl rfl,
    (keydown_suppressed_ops ⟨false, false, true, false, false⟩ {} Direction.ltr
      SelectionMode.multiple none ⟨"a", false, false, true, false, true⟩).2 rfl rfl⟩

/-- C10: the Alt+Tab `preventDefault` runs before the containment check, so
it fires even for targets outside the collection element; every other key
with an outside target produces no action at all (no state change, no
`preventDefault`). -/
theorem keydown_altTab_before_containment (cfg : CollectionConfig)
    (delegate : KeyboardDelegate) (dir : Direction) (mode : SelectionMode)
    (fk : Option String) (e : KeyboardEvent) :
    (e.altKey = true → e.key = "Tab" →
      (onKeyDown cfg delegate dir mode fk e).head? = some Action.preventDefault)
    ∧ (e.altKey = true → e.key = "Tab" → e.targetInCollection = false →
      onKeyDown cfg delegate dir mode fk e = [Action.preventDefault])
    ∧ (¬(e.altKey = true ∧ e.key = "Tab") → e.targetInCollection = false →
      onKeyDown cfg delegate dir mode fk e = []) := by
  obtain ⟨key, alt, shift, ctrl, mta, tgt⟩ := e
  refine ⟨?_, ?_, ?_⟩
  · rintro rfl rfl
    simp [onKeyDown]
  · rintro rfl rfl rfl
    simp [onKeyDown]
  · rintro hna rfl
    have hpre : (alt && decide (key = "Tab")) = false := by
      cases alt with
      | false => rfl
      | true =>
        have hk : key ≠ "Tab" := fun hc => hna ⟨rfl, hc⟩
        simp [hk]
    simp [onKeyDown, hpre]
theorem keydown_altTab_before_containment_witness :
    ((onKeyDown {} {} Direction.ltr SelectionMode.multiple none
        ⟨"Tab", true, false, false, false, false⟩).head?
      = some Action.preventDefault)
    ∧ (onKeyDown {} {} Direction.ltr SelectionMode.multiple none
        ⟨"Tab", true, false, false, false, false⟩
      = [Action.preventDefault])
    ∧ (onKeyDown {} {} Direction.ltr SelectionMode.multiple none
        ⟨"ArrowDown", false, false, false, false, false⟩
      = []) :=
  ⟨(keydown_altTab_before_containment {} {} Direction.ltr SelectionMode.multiple
      none ⟨"Tab", true, false, false, false, false⟩).1 rfl rfl,
    (keydown_altTab_before_containment {} {} Direction.ltr SelectionMode.multiple
      none ⟨"Tab", true, false, false, false, false⟩).2.1 rfl rfl rfl,
    (keydown_altTab_before_containment {} {} Direction.ltr SelectionMode.multiple
      none ⟨"ArrowDown", false, false, false, false, false⟩).2.2
      (by simp) rfl⟩

/-- C3: with focus on the last item and `getKeyBelow` exhausted, ArrowDown
wraps to `getFirstKey` when `shouldFocusWrap` is set and leaves the focused
key untouched (no `setFocusedKey` in the trace) when it is not; ArrowUp at
the first item behaves symmetrically via `getLastKey`. -/
theorem keydown_focus_wrap :
    (∀ (cfg : CollectionConfig) (delegate : KeyboardDelegate) (dir : Direction)
      (mode : SelectionMode) (lastK firstK : String) (e : KeyboardEvent)
      (gB : String → Option String) (gF : Option String → Bool → Option String),
      e.key = "ArrowDown" → e.targetInCollection = true →
      delegate.getKeyBelow = some gB → gB lastK = none →
      delegate.getFirstKey = some gF → gF (some lastK) false = some firstK →
      (cfg.shouldFocusWrap = true →
        Action.setFocusedKey firstK none
          ∈ onKeyDown cfg delegate dir mode (some lastK) e)
      ∧ (cfg.shouldFocusWrap = false →
        ∀ (k : String) (cf : Option FocusStrategy),
          Action.setFocusedKey k cf ∉ onKeyDown cfg delegate dir mode (some lastK) e))
    ∧ (∀ (cfg : CollectionConfig) (delegate : KeyboardDelegate) (dir : Direction)
      (mode : SelectionMode) (firstK lastK : String) (e : KeyboardEvent)
      (gA : String → Option String) (gL : Option String → Bool → Option String),
      e.key = "ArrowUp" → e.targetInCollection = true →
      delegate.getKeyAbove = some gA → gA firstK = none →
      delegate.getLastKey = some gL → gL (some firstK) false = some lastK →
      (cfg.shouldFocusWrap = true →
        Action.setFocusedKey lastK none
          ∈ onKeyDown cfg delegate dir mode (some firstK) e)
      ∧ (cfg.shouldFocusWrap = false →
        ∀ (k : String) (cf : Option FocusStrategy),
          Action.setFocusedKey k cf ∉ onKeyDown cfg delegate dir mode (some firstK) e)) := by
  constructor
  · intro cfg delegate dir mode lastK firstK e gB gF hkey htgt hgb hglast hgf hwrapkey
    obtain ⟨key, alt, shift, ctrl, mta, tgt⟩ := e
    simp only at hkey htgt
    subst hkey htgt
    constructor
    · intro hwrap
      simp [onKeyDown, keySwitch, hgb, hglast, hgf, hwrap, callBoundary,
        hwrapkey, navigateToKey]
    · intro hwrap k cf
      simp [onKeyDown, keySwitch, hgb, hglast, hgf, hwrap, callBoundary,
        navigateToKey]
  · intro cfg delegate dir mode firstK lastK e gA gL hkey htgt hga hgfirst hgl hwrapkey
    obtain ⟨key, alt, shift, ctrl, mta, tgt⟩ := e
    simp only at hkey htgt
    subst hkey htgt
    constructor
    · intro hwrap
      simp [onKeyDown, keySwitch, hga, hgfirst, hgl, hwrap, callBoundary,
        hwrapkey, navigateToKey]
    · intro hwrap k cf
      simp [onKeyDown, keySwitch, hga, hgfirst, hgl, hwrap, callBoundary,
        navigateToKey]

/-- A concrete three-item delegate used to witness the wrap behavior. -/
def wrapDelegate : KeyboardDelegate where
  getKeyBelow := some fun k => if k = "k2" then none else some "k2"
  getKeyAbove := some fun k => if k = "k0" then none else some "k0"
  getFirstKey := some fun _ _ => some "k0"
  getLastKey := some fun _ _ => some "k2"

theorem keydown_focus_wrap_witness :
    (Action.setFocusedKey "k0" none
      ∈ onKeyDown ⟨true, false, false, false, false⟩ wrapDelegate Direction.ltr
          SelectionMode.single (some "k2")
          ⟨"ArrowDown", false, false, false, false, true⟩)
    ∧ (Action.setFocusedKey "k0" none
      ∉ onKeyDown ⟨false, false, false, false, false⟩ wrapDelegate Direction.ltr
          SelectionMode.single (some "k2")
          ⟨"ArrowDown", false, false, false, false, true⟩)
    ∧ (Action.setFocusedKey "k2" none
      ∈ onKeyDown ⟨true, false, false, false, false⟩ wrapDelegate Direction.ltr
          SelectionMode.single (some "k0")
          ⟨"ArrowUp", false, false, false, false, true⟩)
    ∧ (Action.setFocusedKey "k2" none
      ∉ onKeyDown ⟨false, false, false, false, false⟩ wrapDelegate Direction.ltr
          SelectionMode.single (some "k0")
          ⟨"ArrowUp", false, false, false, false, true⟩) :=
  ⟨(keydown_focus_wrap.1 ⟨true, false, false, false, false⟩ wrapDelegate
      Direction.ltr SelectionMode.single "k2" "k0"
      ⟨"ArrowDown", false, false, false, false, true⟩
      (fun k => if k = "k2" then none else some "k2") (fun _ _ => some "k0")
      rfl rfl rfl (by decide) rfl rfl).1 rfl,
    (keydown_focus_wrap.1 ⟨false, false, false, false, false⟩ wrapDelegate
      Direction.ltr SelectionMode.single "k2" "k0"
      ⟨"ArrowDown", false, false, false, false, true⟩
      (fun k => if k = "k2" then none else some "k2") (fun _ _ => some "k0")
      rfl rfl rfl (by decide) rfl rfl).2 rfl "k0" none,
    (keydown_focus_wrap.2 ⟨true, false, false, false, false⟩ wrapDelegate
      Direction.ltr SelectionMode.single "k0" "k2"
      ⟨"ArrowUp", false, false, false, false, true⟩
      (fun k => if k = "k0" then none else some "k0") (fun _ _ => some "k2")
      rfl rfl rfl (by decide) rfl rfl).1 rfl,
    (keydown_focus_wrap.2 ⟨false, false, false, false, false⟩ wrapDelegate
      Direction.ltr SelectionMode.single "k0" "k2"
      ⟨"ArrowUp", false, false, false, false, true⟩
      (fun k => if k = "k0" then none else some "k0") (fun _ _ => some "k2")
      rfl rfl rfl (by decide) rfl rfl).2 rfl "k2" none⟩

/-- The six keydown navigation keys routed through `navigateToKey`. -/
def isNavigationKey (k : String) : Bool :=
  decide (k = "ArrowDown") || decide (k = "ArrowUp") || decide (k = "ArrowLeft")
    || decide (k = "ArrowRight") || decide (k = "PageUp") || decide (k = "PageDown")

/-- The key the keyboard delegate resolves for a navigation keydown — the
neighbor in the key's direction from the focused key, the entry boundary
when nothing is focused, and the wrapped boundary when the neighbor is
exhausted and `shouldFocusWrap` is set; `none` when the capability is
absent or nothing resolves. -/
def navResolve (delegate : KeyboardDelegate) (cfg : CollectionConfig)
    (dir : Direction) (focusedKey : Option String) : String → Option String
  | "ArrowDown" =>
    match delegate.getKeyBelow with
    | none => none
    | some getKeyBelow =>
      let nextKey₀ :=
        match focusedKey with
        | some fk => getKeyBelow fk
        | none => callBoundary delegate.getFirstKey none false
      if nextKey₀ = none && cfg.shouldFocusWrap then
        callBoundary delegate.getFirstKey focusedKey false
      else nextKey₀
  | "ArrowUp" =>
    match delegate.getKeyAbove with
    | none => none
    | some getKeyAbove =>
      let nextKey₀ :=
        match focusedKey with
        | some fk => getKeyAbove fk
        | none => callBoundary delegate.getLastKey none false
      if nextKey₀ = none && cfg.shouldFocusWrap then
        callBoundary delegate.getLastKey focusedKey false
      else nextKey₀
  | "ArrowLeft" =>
    match delegate.getKeyLeftOf with
    | none => none
    | some getKeyLeftOf =>
      match focusedKey with
      | some fk => getKeyLeftOf fk
      | none =>
        if decide (dir = Direction.rtl) then
          callBoundary delegate.getFirstKey none false
        else callBoundary delegate.getLastKey none false
  | "ArrowRight" =>
    match delegate.getKeyRightOf with
    | none => none
    | some getKeyRightOf =>
      match focusedKey with
      | some fk => getKeyRightOf fk
      | none =>
        if decide (dir = Direction.rtl) then
          callBoundary delegate.getLastKey none false
        else callBoundary delegate.getFirstKey none false
  | "PageDown" =>
    match delegate.getKeyPageBelow, focusedKey with
    | some getKeyPageBelow, some fk => getKeyPageBelow fk
    | _, _ => none
  | "PageUp" =>
    match delegate.getKeyPageAbove, focusedKey with
    | some getKeyPageAbove, some fk => getKeyPageAbove fk
    | _, _ => none
  | _ => none

/-- The child focus strategy hint `navigateToKey` receives for each
navigation key (only the horizontal arrows pass one, swapped under RTL). -/
def childFocusHint (dir : Direction) : String → Option FocusStrategy
  | "ArrowLeft" =>
    some (if decide (dir = Direction.rtl) then FocusStrategy.first
      else FocusStrategy.last)
  | "ArrowRight" =>
    some (if decide (dir = Direction.rtl) then FocusStrategy.last
      else FocusStrategy.first)
  | _ => none

/-- C1: for every navigation keydown whose delegate resolution yields a key
`k`, the handler prevents default, sets `k` focused, and then extends the
selection (Shift held in multiple mode) or replaces it (`selectOnFocus` and
no non-contiguous-selection modifier); when nothing resolves, no selection
operation (indeed nothing but `preventDefault`) is performed. -/
theorem keydown_navigation_policy (cfg : CollectionConfig)
    (delegate : KeyboardDelegate) (dir : Direction) (mode : SelectionMode)
    (fk : Option String) (e : KeyboardEvent)
    (htgt : e.targetInCollection = true) (hnav : isNavigationKey e.key = true) :
    (∀ k : String, navResolve delegate cfg dir fk e.key = some k →
      onKeyDown cfg delegate dir mode fk e
        = [Action.preventDefault, Action.setFocusedKey k (childFocusHint dir e.key)]
          ++ (if e.shiftKey && decide (mode = SelectionMode.multiple) then
                [Action.extendSelection k]
              else if cfg.selectOnFocus && !isNonContiguousSelectionModifier e then
                [Action.replaceSelection k]
              else []))
    ∧ (navResolve delegate cfg dir fk e.key = none →
      ∀ a ∈ onKeyDown cfg delegate dir mode fk e, a = Action.preventDefault) := by
  obtain ⟨key, alt, shift, ctrl, mta, tgt⟩ := e
  simp only at htgt hnav ⊢
  subst htgt
  simp only [isNavigationKey, Bool.or_eq_true, decide_eq_true_eq] at hnav
  rcases hnav with ((((rfl | rfl) | rfl) | rfl) | rfl) | rfl
  case _ =>
    -- ArrowDown
    rcases hb : delegate.getKeyBelow with _ | getKeyBelow
    · constructor
      · intro k hres
        simp [navResolve, hb] at hres
      · intro _ a ha
        simp [onKeyDown, keySwitch, hb] at ha
    · constructor
      · intro k hres
        simp only [navResolve, hb] at hres
        simp only [onKeyDown, keySwitch, hb]
        rw [hres]
        simp [navigateToKey, childFocusHint]
      · intro hres a ha
        simp only [navResolve, hb] at hres
        simp only [onKeyDown, keySwitch, hb] at ha
        rw [hres] at ha
        simp [navigateToKey] at ha
        exact ha
  case _ =>
    -- ArrowUp
    rcases hb : delegate.getKeyAbove with _ | getKeyAbove
    · constructor
      · intro k hres
        simp [navResolve, hb] at hres
      · intro _ a ha
        simp [onKeyDown, keySwitch, hb] at ha
    · constructor
      · intro k hres
        simp only [navResolve, hb] at hres
        simp only [onKeyDown, keySwitch, hb]
        rw [hres]
        simp [navigateToKey, childFocusHint]
      · intro hres a ha
        simp only [navResolve, hb] at hres
        simp only [onKeyDown, keySwitch, hb] at ha
        rw [hres] at ha
        simp [navigateToKey] at ha
        exact ha
  case _ =>
    -- ArrowLeft
    rcases hb : delegate.getKeyLeftOf with _ | getKeyLeftOf
    · constructor
      · intro k hres
        simp [navResolve, hb] at hres
      · intro _ a ha
        simp [onKeyDown, keySwitch, hb] at ha
    · constructor
      · intro k hres
        simp only [navResolve, hb] at hres
        simp only [onKeyDown, keySwitch, hb]
        rw [hres]
        simp [navigateToKey, childFocusHint]
      · intro hres a ha
        simp only [navResolve, hb] at hres
        simp only [onKeyDown, keySwitch, hb] at ha
        rw [hres] at ha
        simp [navigateToKey] at ha
        exact ha
  case _ =>
    -- ArrowRight
    rcases hb : delegate.getKeyRightOf with _ | getKeyRightOf
    · constructor
      · intro k hres
        simp [navResolve, hb] at hres
      · intro _ a ha
        simp [onKeyDown, keySwitch, hb] at ha
    · constructor
      · intro k hres
        simp only [navResolve, hb] at hres
        simp only [onKeyDown, keySwitch, hb]
        rw [hres]
        simp [navigateToKey, childFocusHint]
      · intro hres a ha
        simp only [navResolve, hb] at hres
        simp only [onKeyDown, keySwitch, hb] at ha
        rw [hres] at ha
        simp [navigateToKey] at ha
        exact ha
  case _ =>
    -- PageUp
    rcases hb : delegate.getKeyPageAbove with _ | getKeyPageAbove
    · constructor
      · intro k hres
        simp [navResolve, hb] at hres
      · intro _ a ha
        simp [onKeyDown, keySwitch, hb] at ha
    · rcases fk with _ | fk'
      · constructor
        · intro k hres
          simp [navResolve, hb] at hres
        · intro _ a ha
          simp [onKeyDown, keySwitch, hb] at ha
      · constructor
        · intro k hres
          simp only [navResolve, hb] at hres
          simp only [onKeyDown, keySwitch, hb]
          rw [hres]
          simp [navigateToKey, childFocusHint]
        · intro hres a ha
          simp only [navResolve, hb] at hres
          simp only [onKeyDown, keySwitch, hb] at ha
          rw [hres] at ha
          simp [navigateToKey] at ha
          exact ha
  case _ =>
    -- PageDown
    rcases hb : delegate.getKeyPageBelow with _ | getKeyPageBelow
    · constructor
      · intro k hres
        simp [navResolve, hb] at hres
      · intro _ a ha
        simp [onKeyDown, keySwitch, hb] at ha
    · rcases fk with _ | fk'
      · constructor
        · intro k hres
          simp [navResolve, hb] at hres
        · intro _ a ha
          simp [onKeyDown, keySwitch, hb] at ha
      · constructor
        · intro k hres
          simp only [navResolve, hb] at hres
          simp only [onKeyDown, keySwitch, hb]
          rw [hres]
          simp [navigateToKey, childFocusHint]
        · intro hres a ha
          simp only [navResolve, hb] at hres
          simp only [onKeyDown, keySwitch, hb] at ha
          rw [hres] at ha
          simp [navigateToKey] at ha
          exact ha

/-- A concrete two-item downward delegate used to witness the navigation
policy. -/
def navDelegate : KeyboardDelegate where
  getKeyBelow := some fun k => if k = "k0" then some "k1" else none

theorem keydown_navigation_policy_witness :
    (onKeyDown ⟨false, false, false, true, false⟩ navDelegate Direction.ltr
        SelectionMode.single (some "k0")
        ⟨"ArrowDown", false, false, false, false, true⟩
      = [Action.preventDefault, Action.setFocusedKey "k1" none,
          Action.replaceSelection "k1"])
    ∧ Action.preventDefault = Action.preventDefault := by
  constructor
  · have h := (keydown_navigation_policy ⟨false, false, false, true, false⟩
      navDelegate Direction.ltr SelectionMode.single (some "k0")
      ⟨"ArrowDown", false, false, false, false, true⟩ rfl (by decide)).1
      "k1" (by decide)
    simpa [childFocusHint, isNonContiguousSelectionModifier] using h
  · exact (keydown_navigation_policy ⟨false, false, false, true, false⟩
      navDelegate Direction.ltr SelectionMode.single (some "k1")
      ⟨"ArrowDown", false, false, false, false, true⟩ rfl (by decide)).2
      (by decide) Action.preventDefault (by decide)

theorem filter_snd_map_snd {α β : Type} (xs : List (β × α)) (q : α → Bool) :
    (xs.filter fun p => q p.2).map Prod.snd = (xs.map Prod.snd).filter q := by
  induction xs with
  | nil => rfl
  | cons x rest ih =>
    by_cases hq : q x.2 = true
    · simp [List.filter_cons, hq, ih]
    · simp only [Bool.not_eq_true] at hq
      simp [List.filter_cons, hq, ih]

theorem jsIndexOf_eq_of_get? [DecidableEq α] {l : List α} (hnd : l.Nodup)
    {i : Nat} {a : α} (h : l.get? i = some a) : jsIndexOf l a = (i : Int) := by
  induction l generalizing i with
  | nil => simp at h
  | cons x xs ih =>
    rcases List.nodup_cons.mp hnd with ⟨hx, hxs⟩
    cases i with
    | zero =>
      simp only [List.get?_cons_zero, Option.some.injEq] at h
      subst h
      simp [jsIndexOf, jsFindIndex]
    | succ j =>
      simp only [List.get?_cons_succ] at h
      have hmem : a ∈ xs := List.get?_mem h
      have hne : x ≠ a := fun hc => hx (hc ▸ hmem)
      have hrec := ih hxs h
      simp only [jsIndexOf] at hrec ⊢
      rw [jsFindIndex_cons]
      have hdx : decide (x = a) = false := by simp [hne]
      rw [hdx, if_neg (by simp)]
      rw [hrec]
      have hj : ¬((j : Int) = -1) := by omega
      rw [if_neg hj]
      omega

theorem rotEnumHead (items : List Item) (hnd : items.Nodup) (s : Nat)
    (q : Item → Bool) :
    (((items.drop s ++ items.take s).filter q).head? = none
      ∧ ((items.enum.drop s ++ items.enum.take s).filter
          fun p => q p.2).head? = none)
    ∨ ∃ (i : Nat) (a : Item),
        ((items.drop s ++ items.take s).filter q).head? = some a
        ∧ ((items.enum.drop s ++ items.enum.take s).filter
            fun p => q p.2).head? = some (i, a)
        ∧ jsIndexOf items a = (i : Int) := by
  have hmap : ((items.enum.drop s ++ items.enum.take s).filter
      fun p => q p.2).map Prod.snd = (items.drop s ++ items.take s).filter q := by
    rw [filter_snd_map_snd]
    congr 1
    rw [List.map_append, List.map_drop, List.map_take, List.enum_map_snd]
  rcases hh : ((items.enum.drop s ++ items.enum.take s).filter
      fun p => q p.2).head? with _ | pair
  · left
    refine ⟨?_, hh⟩
    rw [← hmap, List.head?_map, hh]
    rfl
  · right
    obtain ⟨i, a⟩ := pair
    refine ⟨i, a, ?_, hh, ?_⟩
    · rw [← hmap, List.head?_map, hh]
      rfl
    · have hmem₀ : (i, a) ∈ (items.enum.drop s ++ items.enum.take s).filter
          fun p => q p.2 := List.mem_of_mem_head? (Option.mem_def.mpr hh)
      have hmem₁ : (i, a) ∈ items.enum.drop s ++ items.enum.take s :=
        (List.mem_filter.mp hmem₀).1
      have hmem₂ : (i, a) ∈ items.enum := by
        rcases List.mem_append.mp hmem₁ with hm | hm
        · exact List.drop_subset s items.enum hm
        · exact List.take_subset s items.enum hm
      have hget : items.get? i = some a := List.mk_mem_enum_iff_get?.mp hmem₂
      exact jsIndexOf_eq_of_get? hnd hget

/-- C2: `findIndexBySearch` agrees with the spec's description — it
returns the original (un-rotated) index of the first item, in wrap-around
order from `startIndex`, whose `textValue` starts with the filter; failing
that, with a filter that is one repeated character, the first match of that
single character; else `-1`.  (Keys unique, as the data model requires, so
JS reference `indexOf` and structural lookup agree.) -/
theorem findIndexBySearch_matches_spec (items : List Item) (filter : String)
    (collator : Collator) (startIndex : Nat)
    (hkeys : (items.map Item.key).Nodup) :
    findIndexBySearch items filter collator startIndex
      = findIndexBySearchSpec items filter collator startIndex := by
  have hnd : items.Nodup := hkeys.of_map
  simp only [findIndexBySearch, findIndexBySearchSpec, filterItems]
  rcases rotEnumHead items hnd startIndex
      (fun item => startsWithByCollator collator item.textValue filter) with
    ⟨h1, h2⟩ | ⟨i, a, h1, h2, h3⟩
  · rw [h1, h2]
    rcases hrep : allSameLetter filter.toList with _ | _
    · simp [hrep]
    · simp only [hrep, if_true]
      rcases rotEnumHead items hnd startIndex
          (fun item => startsWithByCollator collator item.textValue
            (filter.take 1)) with
        ⟨g1, g2⟩ | ⟨j, b, g1, g2, g3⟩
      · rw [g1, g2]
      · rw [g1, g2]
        exact g3
  · rw [h1, h2]
    exact h3

theorem findIndexBySearch_matches_spec_witness :
    findIndexBySearch
        [⟨"k0", "Apple", false⟩, ⟨"k1", "Banana", false⟩, ⟨"k2", "Apricot", false⟩]
        "aa" ⟨fun a b => if a.toLower = b.toLower then 0 else 1⟩ 1
      = findIndexBySearchSpec
        [⟨"k0", "Apple", false⟩, ⟨"k1", "Banana", false⟩, ⟨"k2", "Apricot", false⟩]
        "aa" ⟨fun a b => if a.toLower = b.toLower then 0 else 1⟩ 1 :=
  findIndexBySearch_matches_spec
    [⟨"k0", "Apple", false⟩, ⟨"k1", "Banana", false⟩, ⟨"k2", "Apricot", false⟩]
    "aa" ⟨fun a b => if a.toLower = b.toLower then 0 else 1⟩ 1 (by decide)

end SolidAria
